import Mathlib

/-!
Shallow embedding of the data-logger task of `src/Tasks/Src/logger.c`
(`logger_thread_entry`): the rotation manager that picks the session's
log-file sequence id, the per-class frame encoders, the sampling loop's
per-iteration step (tick-gated and edge-triggered sample gates, the SD
flush gate), and execution traces of that loop.

Machine integers are modelled as `Nat` (unsigned 32-bit values reduced
mod `2^32` where the C code's arithmetic wraps) and `Int` (for the
signed 16-bit sensor readings, truncated to two bytes exactly as
`memcpy` of an `int16_t` does on the little-endian Cortex-M target).
A frame is a `List Nat` of byte values.
-/

namespace Logger

/-- Wrapping 32-bit subtraction `a - b` as computed on `uint32_t`
operands (`timestamp - last_..._timestamp` in the C source). -/
def wsub (a b : Nat) : Nat := (a + (2 ^ 32 - b % 2 ^ 32)) % 2 ^ 32

/-- Little-endian byte image of a 32-bit value, as laid down by
`memcpy(buf, &timestamp, 4)` (and by the `memcpy` of a wheel's 4-byte
`rpm` bit pattern) on the little-endian target. -/
def le32 (v : Nat) : List Nat :=
  [v % 256, v / 256 % 256, v / 2 ^ 16 % 256, v / 2 ^ 24 % 256]

/-- Little-endian byte image of an `int16_t` value, as laid down by
`memcpy(buf + k, &v, 2)` on the little-endian target (two's
complement). -/
def le16 (v : Int) : List Nat :=
  [(v % 65536).toNat % 256, (v % 65536).toNat / 256]

/-- The LDPS (range-array, sensor id 0x01) frame built at
`logger.c:112-122`: 4-byte timestamp, id byte 0x01, length byte
`LDPS_N * 2` (an 8-bit store, hence mod 256), the calibrated readings
as little-endian 16-bit values, and the 0x0D 0x0A trailer. -/
def ldpsFrame (ts : Nat) (rs : List Int) : List Nat :=
  le32 ts ++ [0x01, (2 * rs.length) % 256] ++ rs.flatMap le16 ++ [0x0D, 0x0A]

/-- The triaxial IMU frame built at `logger.c:131-138` (accelerometer,
id 0x02) and `logger.c:143-150` (gyroscope, id 0x03): 4-byte timestamp,
id byte, length byte 0x06, the three raw axes as little-endian 16-bit
values, and the 0x0D 0x0A trailer. -/
def triFrame (id ts : Nat) (x y z : Int) : List Nat :=
  le32 ts ++ [id, 0x06] ++ le16 x ++ le16 y ++ le16 z ++ [0x0D, 0x0A]

/-- The wheel-speed frame built at `logger.c:158-163` (id 0x04): 4-byte
timestamp, id byte 0x04, then — with no length byte — the wheels' 4-byte
`rpm` bit patterns starting at offset 5, and the 0x0D 0x0A trailer.
Each wheel's `float rpm` is represented by its 32-bit bit pattern. -/
def wheelFrame (ts : Nat) (ws : List Nat) : List Nat :=
  le32 ts ++ [0x04] ++ ws.flatMap le32 ++ [0x0D, 0x0A]

/-- The loop's persistent gate state: the five `static uint32_t`
"last timestamp" variables of `logger_thread_entry`
(`last_ldps_timestamp`, `last_acc_timestamp`, `last_gyro_timestamp`,
`last_wheel_timestamp`, `last_sd_timestamp`). -/
structure LoggerState where
  lastLdps : Nat
  lastAcc : Nat
  lastGyro : Nat
  lastWheel : Nat
  lastSd : Nat
deriving DecidableEq, Repr

/-- All five static gate variables are zero-initialised in the C source. -/
def initState : LoggerState := ⟨0, 0, 0, 0, 0⟩

/-- The environment one loop iteration observes: the tick counter
`tx_time_get()`, the calibrated LDPS readings `ldps_read(...)`, the IMU
driver's sample timestamps `imu.acc.timestamp` / `imu.gyro.timestamp`
and raw axes, and the wheels' `rpm` bit patterns. -/
structure LoggerInput where
  ts : Nat
  ldps : List Int
  accTs : Nat
  accX : Int
  accY : Int
  accZ : Int
  gyroTs : Nat
  gyroX : Int
  gyroY : Int
  gyroZ : Int
  wheels : List Nat
deriving DecidableEq, Repr

/-- One iteration of the sampling loop (`logger.c:104-175`) with every
sensor class and the SD sink enabled, parameterised by
`T = TX_TIMER_TICKS_PER_SECOND`.  Returns the updated gate state, the
frames handed to `logger_output` in program order, and whether
`fx_media_flush` ran this iteration.  The tick gates test
`timestamp - last > T / 1000` in wrapping 32-bit arithmetic; the edge
gates test `imu.*.timestamp != last`; the flush gate tests
`timestamp - last_sd_timestamp > T`. -/
def step (T : Nat) (s : LoggerState) (i : LoggerInput) :
    LoggerState × List (List Nat) × Bool :=
  (⟨if T / 1000 < wsub i.ts s.lastLdps then i.ts else s.lastLdps,
    if i.accTs ≠ s.lastAcc then i.accTs else s.lastAcc,
    if i.gyroTs ≠ s.lastGyro then i.gyroTs else s.lastGyro,
    if T / 1000 < wsub i.ts s.lastWheel then i.ts else s.lastWheel,
    if T < wsub i.ts s.lastSd then i.ts else s.lastSd⟩,
   (if T / 1000 < wsub i.ts s.lastLdps then [ldpsFrame i.ts i.ldps] else []) ++
   (if i.accTs ≠ s.lastAcc then [triFrame 0x02 i.ts i.accX i.accY i.accZ] else []) ++
   (if i.gyroTs ≠ s.lastGyro then [triFrame 0x03 i.ts i.gyroX i.gyroY i.gyroZ] else []) ++
   (if T / 1000 < wsub i.ts s.lastWheel then [wheelFrame i.ts i.wheels] else []),
   decide (T < wsub i.ts s.lastSd))

/-- Whether some frame of sensor class `c` (identified by the id byte
at offset 4, right after the timestamp) occurs in a list of frames. -/
def emittedClass (frames : List (List Nat)) (c : Nat) : Bool :=
  frames.any fun f => decide (f[4]? = some c)

/-- The per-iteration frame lists of a run of the sampling loop. -/
def runTrace (T : Nat) : LoggerState → List LoggerInput → List (List (List Nat))
  | _, [] => []
  | s, i :: rest => (step T s i).2.1 :: runTrace T (step T s i).1 rest

/-- The gate state after running the sampling loop over `inputs`. -/
def stateAfter (T : Nat) (s : LoggerState) (inputs : List LoggerInput) : LoggerState :=
  inputs.foldl (fun t j => (step T t j).1) s

/-- The values `p j` of the iterations of a run, in order, at which a
frame of class `c` was emitted (`p` projects the observation of
interest out of the iteration's input, e.g. its tick or the IMU's
sample timestamp). -/
def emitProj (T c : Nat) (p : LoggerInput → Nat) :
    LoggerState → List LoggerInput → List Nat
  | _, [] => []
  | s, i :: rest =>
    (if emittedClass (step T s i).2.1 c then [p i] else []) ++
      emitProj T c p (step T s i).1 rest

/-- The rotation loop of `logger.c:86-99` from a given starting id:
while the file for the current id opens successfully the id is
incremented; at the first id whose open fails that id is selected (the
file is then created and opened).  `existsFile fid` models
`fx_file_open` on `fsae-%04d.log` succeeding; `fuel` bounds the search
so the recursion is total — the C loop is unbounded. -/
def rotationFrom (existsFile : Nat → Bool) : Nat → Nat → Option Nat
  | 0, _ => none
  | fuel + 1, fid =>
    if existsFile fid then rotationFrom existsFile fuel (fid + 1) else some fid

/-- Sequence-id selection of the rotation manager: the search starts at
id 0 (`int fid = 0`). -/
def rotationSelect (existsFile : Nat → Bool) (fuel : Nat) : Option Nat :=
  rotationFrom existsFile fuel 0

/-- Concrete loop input used to instantiate theorems: tick 1, no LDPS
channels, IMU timestamps 1, no wheels. -/
def sampleIn : LoggerInput := ⟨1, [], 1, 0, 0, 0, 1, 0, 0, 0, []⟩

/-- Concrete loop input used to instantiate theorems: tick 5, one LDPS
channel, IMU timestamps 2, one wheel. -/
def sampleIn2 : LoggerInput := ⟨5, [100], 2, 1, -1, 2, 2, 3, -3, 4, [7]⟩

/-- Concrete loop input used to instantiate theorems: tick 1 with both
IMU sample timestamps still 0. -/
def sampleZeroIn : LoggerInput := ⟨1, [], 0, 0, 0, 0, 0, 0, 0, 0, []⟩

/-- Concrete loop input sharing its tick with `sampleIn2` but differing
in every sensor observation. -/
def sampleIn3 : LoggerInput := ⟨5, [7], 9, 9, 9, 9, 9, 9, 9, 9, [9]⟩

/-- When no wraparound intervenes, the wrapping 32-bit subtraction is
plain subtraction. -/
theorem wsub_eq_sub {a b : Nat} (ha : a < 2 ^ 32) (hb : b < 2 ^ 32) (hba : b ≤ a) :
    wsub a b = a - b := by
  unfold wsub
  rw [Nat.mod_eq_of_lt hb]
  have h : a + (2 ^ 32 - b) = (a - b) + 2 ^ 32 := by omega
  rw [h, Nat.add_mod_right, Nat.mod_eq_of_lt (by omega)]

/-- Membership in a conditional singleton yields the condition and the
equality. -/
theorem mem_ite_singleton {α : Type} {b : Prop} [Decidable b] {f x : α}
    (h : f ∈ if b then [x] else []) : b ∧ f = x := by
  by_cases hb : b
  · rw [if_pos hb] at h
    exact ⟨hb, by simpa using h⟩
  · rw [if_neg hb] at h
    simp at h

/-- The id byte of an LDPS frame sits at offset 4 and is 0x01. -/
@[simp] theorem ldpsFrame_id (ts : Nat) (rs : List Int) :
    (ldpsFrame ts rs)[4]? = some 1 := by
  simp [ldpsFrame, le32]

/-- The id byte of a triaxial frame sits at offset 4. -/
@[simp] theorem triFrame_id (id ts : Nat) (x y z : Int) :
    (triFrame id ts x y z)[4]? = some id := by
  simp [triFrame, le32]

/-- The id byte of a wheel-speed frame sits at offset 4 and is 0x04. -/
@[simp] theorem wheelFrame_id (ts : Nat) (ws : List Nat) :
    (wheelFrame ts ws)[4]? = some 4 := by
  simp [wheelFrame, le32]

/-- Every frame an iteration hands to `logger_output` is one of the
four class encodings at that iteration's observations, and its class
gate held. -/
theorem mem_step_frames {T : Nat} {s : LoggerState} {i : LoggerInput} {f : List Nat}
    (hf : f ∈ (step T s i).2.1) :
    (T / 1000 < wsub i.ts s.lastLdps ∧ f = ldpsFrame i.ts i.ldps) ∨
    (i.accTs ≠ s.lastAcc ∧ f = triFrame 2 i.ts i.accX i.accY i.accZ) ∨
    (i.gyroTs ≠ s.lastGyro ∧ f = triFrame 3 i.ts i.gyroX i.gyroY i.gyroZ) ∨
    (T / 1000 < wsub i.ts s.lastWheel ∧ f = wheelFrame i.ts i.wheels) := by
  simp only [step] at hf
  rcases List.mem_append.1 hf with h | h
  · rcases List.mem_append.1 h with h | h
    · rcases List.mem_append.1 h with h | h
      · exact Or.inl (mem_ite_singleton h)
      · exact Or.inr (Or.inl (mem_ite_singleton h))
    · exact Or.inr (Or.inr (Or.inl (mem_ite_singleton h)))
  · exact Or.inr (Or.inr (Or.inr (mem_ite_singleton h)))

/-- Class occurrence distributes over frame-list concatenation. -/
theorem emittedClass_append (l1 l2 : List (List Nat)) (c : Nat) :
    emittedClass (l1 ++ l2) c = (emittedClass l1 c || emittedClass l2 c) := by
  simp [emittedClass]

/-- Class occurrence on a conditional singleton frame. -/
theorem emittedClass_ite {b : Prop} [Decidable b] (f : List Nat) (c : Nat) :
    emittedClass (if b then [f] else []) c =
      (decide b && decide (f[4]? = some c)) := by
  by_cases hb : b <;> simp [emittedClass, hb]

/-- Class occurrence on the negated form of a conditional singleton
frame (the shape the edge gates take after `if_neg` normalisation). -/
theorem emittedClass_ite_nil {b : Prop} [Decidable b] (f : List Nat) (c : Nat) :
    emittedClass (if b then [] else [f]) c =
      (!(decide b) && decide (f[4]? = some c)) := by
  by_cases hb : b <;> simp [emittedClass, hb]

/-- An LDPS frame is emitted in an iteration exactly when the LDPS tick
gate opens. -/
theorem emit_ldps_iff (T : Nat) (s : LoggerState) (i : LoggerInput) :
    emittedClass (step T s i).2.1 1 = true ↔ T / 1000 < wsub i.ts s.lastLdps := by
  simp [step, emittedClass_append, emittedClass_ite, emittedClass_ite_nil]

/-- An accelerometer frame is emitted in an iteration exactly when the
accelerometer edge gate opens. -/
theorem emit_acc_iff (T : Nat) (s : LoggerState) (i : LoggerInput) :
    emittedClass (step T s i).2.1 2 = true ↔ i.accTs ≠ s.lastAcc := by
  simp [step, emittedClass_append, emittedClass_ite, emittedClass_ite_nil]

/-- A gyroscope frame is emitted in an iteration exactly when the
gyroscope edge gate opens. -/
theorem emit_gyro_iff (T : Nat) (s : LoggerState) (i : LoggerInput) :
    emittedClass (step T s i).2.1 3 = true ↔ i.gyroTs ≠ s.lastGyro := by
  simp [step, emittedClass_append, emittedClass_ite, emittedClass_ite_nil]

/-- A wheel-speed frame is emitted in an iteration exactly when the
wheel tick gate opens. -/
theorem emit_wheel_iff (T : Nat) (s : LoggerState) (i : LoggerInput) :
    emittedClass (step T s i).2.1 4 = true ↔ T / 1000 < wsub i.ts s.lastWheel := by
  simp [step, emittedClass_append, emittedClass_ite, emittedClass_ite_nil]

/-- How one iteration updates the LDPS tick gate. -/
theorem step_lastLdps (T : Nat) (s : LoggerState) (i : LoggerInput) :
    (step T s i).1.lastLdps =
      if T / 1000 < wsub i.ts s.lastLdps then i.ts else s.lastLdps := rfl

/-- How one iteration updates the accelerometer edge gate. -/
theorem step_lastAcc (T : Nat) (s : LoggerState) (i : LoggerInput) :
    (step T s i).1.lastAcc = if i.accTs ≠ s.lastAcc then i.accTs else s.lastAcc := rfl

/-- How one iteration updates the gyroscope edge gate. -/
theorem step_lastGyro (T : Nat) (s : LoggerState) (i : LoggerInput) :
    (step T s i).1.lastGyro =
      if i.gyroTs ≠ s.lastGyro then i.gyroTs else s.lastGyro := rfl

/-- How one iteration updates the wheel tick gate. -/
theorem step_lastWheel (T : Nat) (s : LoggerState) (i : LoggerInput) :
    (step T s i).1.lastWheel =
      if T / 1000 < wsub i.ts s.lastWheel then i.ts else s.lastWheel := rfl

/-- How one iteration updates the SD flush gate. -/
theorem step_lastSd (T : Nat) (s : LoggerState) (i : LoggerInput) :
    (step T s i).1.lastSd = if T < wsub i.ts s.lastSd then i.ts else s.lastSd := rfl

/-- The rotation loop started at `fid` returns, whenever a free id is
within reach of its fuel, the least free id at or above `fid`. -/
theorem rotationFrom_spec (ex : Nat → Bool) :
    ∀ fuel fid n, fid ≤ n → n < fid + fuel → ex n = false →
    ∃ m, rotationFrom ex fuel fid = some m ∧ fid ≤ m ∧ ex m = false ∧
      ∀ k, fid ≤ k → k < m → ex k = true := by
  intro fuel
  induction fuel with
  | zero => intro fid n h1 h2 h3; omega
  | succ fuel ih =>
    intro fid n h1 h2 h3
    by_cases hb : ex fid = true
    · have hn : fid + 1 ≤ n := by
        rcases Nat.eq_or_lt_of_le h1 with he | hl
        · rw [← he] at h3; rw [h3] at hb; cases hb
        · omega
      obtain ⟨m, hm, hfm, hex, hk⟩ := ih (fid + 1) n hn (by omega) h3
      refine ⟨m, ?_, by omega, hex, ?_⟩
      · simp [rotationFrom, hb, hm]
      · intro k hk1 hk2
        rcases Nat.eq_or_lt_of_le hk1 with he | hl
        · rw [← he]; exact hb
        · exact hk k hl hk2
    · refine ⟨fid, ?_, Nat.le_refl _, by simpa using hb, ?_⟩
      · simp [rotationFrom, hb]
      · intro k hk1 hk2; omega

/-- C1: the rotation manager selects, as the session's log-file
sequence id, the smallest non-negative id whose file does not already
exist: it starts at 0, advances past every id whose open succeeds, and
stops at the first id whose open fails; in particular with existing
ids {0,1,2} it selects id 3. -/
theorem rotation_selects_smallest_free_id (ex : Nat → Bool) (fuel n : Nat)
    (hn : n < fuel) (hex : ex n = false) :
    (∃ m, rotationSelect ex fuel = some m ∧ ex m = false ∧
      (∀ k, k < m → ex k = true) ∧ ∀ j, ex j = false → m ≤ j) ∧
    rotationSelect (fun k => decide (k < 3)) 4 = some 3 := by
  refine ⟨?_, by decide⟩
  obtain ⟨m, hm, _, hexm, hk⟩ :=
    rotationFrom_spec ex fuel 0 n (Nat.zero_le n) (by omega) hex
  refine ⟨m, hm, hexm, fun k hkm => hk k (Nat.zero_le k) hkm, ?_⟩
  intro j hj
  by_contra hjm
  rw [hk j (Nat.zero_le j) (by omega)] at hj
  cases hj

/-- Instance of C1 at the spec's example: existing files {0,1,2},
searched with fuel 4. -/
theorem rotation_selects_smallest_free_id_witness :
    (∃ m, rotationSelect (fun k => decide (k < 3)) 4 = some m ∧
      (fun k => decide (k < 3)) m = false ∧
      (∀ k, k < m → (fun k => decide (k < 3)) k = true) ∧
      ∀ j, (fun k => decide (k < 3)) j = false → m ≤ j) ∧
    rotationSelect (fun k => decide (k < 3)) 4 = some 3 :=
  rotation_selects_smallest_free_id (fun k => decide (k < 3)) 4 3
    (by decide) (by decide)

/-- An `int16_t` always serialises to exactly two bytes. -/
theorem length_flatMap_le16 (rs : List Int) :
    (rs.flatMap le16).length = 2 * rs.length := by
  induction rs with
  | nil => rfl
  | cons a l ih => simp [le16, ih]; ring

/-- A 32-bit value always serialises to exactly four bytes. -/
theorem length_flatMap_le32 (ws : List Nat) :
    (ws.flatMap le32).length = 4 * ws.length := by
  induction ws with
  | nil => rfl
  | cons a l ih => simp [le32, ih]; ring

/-- C2: for classes 0x01–0x03 the `data_length` byte at offset 5 equals
the exact number of payload bytes that follow it (2·N for the range
array, 6 for accelerometer and gyroscope); for class 0x04 no length
byte is emitted, the payload starts immediately after the id byte and
is exactly 16 bytes (4 wheels × 4-byte float). -/
theorem frame_length_fields (ts : Nat) (rs : List Int) (x y z gx gy gz : Int)
    (ws : List Nat) (h1 : 2 * rs.length < 256) (h2 : ws.length = 4) :
    (∃ p, ldpsFrame ts rs = le32 ts ++ [1, 2 * rs.length] ++ p ++ [13, 10] ∧
      p.length = 2 * rs.length) ∧
    (∃ p, triFrame 2 ts x y z = le32 ts ++ [2, 6] ++ p ++ [13, 10] ∧
      p.length = 6) ∧
    (∃ p, triFrame 3 ts gx gy gz = le32 ts ++ [3, 6] ++ p ++ [13, 10] ∧
      p.length = 6) ∧
    (∃ p, wheelFrame ts ws = le32 ts ++ [4] ++ p ++ [13, 10] ∧
      p.length = 16) := by
  refine ⟨⟨rs.flatMap le16, ?_, length_flatMap_le16 rs⟩,
    ⟨le16 x ++ le16 y ++ le16 z, ?_, by simp [le16]⟩,
    ⟨le16 gx ++ le16 gy ++ le16 gz, ?_, by simp [le16]⟩,
    ⟨ws.flatMap le32, ?_, by rw [length_flatMap_le32, h2]⟩⟩
  · simp [ldpsFrame, Nat.mod_eq_of_lt h1, List.append_assoc]
  · simp [triFrame, List.append_assoc]
  · simp [triFrame, List.append_assoc]
  · simp [wheelFrame, List.append_assoc]

/-- Instance of C2 at two range readings and four zero wheels. -/
theorem frame_length_fields_witness :
    (∃ p, ldpsFrame 0 [100, 200] =
        le32 0 ++ [1, 2 * ([100, 200] : List Int).length] ++ p ++ [13, 10] ∧
      p.length = 2 * ([100, 200] : List Int).length) ∧
    (∃ p, triFrame 2 0 1 (-1) 2 = le32 0 ++ [2, 6] ++ p ++ [13, 10] ∧
      p.length = 6) ∧
    (∃ p, triFrame 3 0 3 (-3) 4 = le32 0 ++ [3, 6] ++ p ++ [13, 10] ∧
      p.length = 6) ∧
    (∃ p, wheelFrame 0 [0, 0, 0, 0] = le32 0 ++ [4] ++ p ++ [13, 10] ∧
      p.length = 16) :=
  frame_length_fields 0 [100, 200] 1 (-1) 2 3 (-3) 4 [0, 0, 0, 0]
    (by decide) (by decide)

/-- C3, refuted as stated: with little-endian encoding the two
calibrated readings 100 and 200 do NOT serialise to payload bytes
`00 64 00 C8`; the frame after the timestamp is not
`01 04 00 64 00 C8 0D 0A`. -/
theorem range_example_bytes_counterexample :
    ¬ (ldpsFrame 0 [100, 200]).drop 4 =
      [0x01, 0x04, 0x00, 0x64, 0x00, 0xC8, 0x0D, 0x0A] := by decide

/-- C3, amended: with little-endian encoding the readings 100 and 200
serialise to payload bytes `64 00 C8 00`, so the frame after the 4-byte
timestamp is exactly `01 04 64 00 C8 00 0D 0A` and the whole frame is
12 bytes. -/
theorem range_example_bytes (ts : Nat) :
    (ldpsFrame ts [100, 200]).drop 4 =
      [0x01, 0x04, 0x64, 0x00, 0xC8, 0x00, 0x0D, 0x0A] ∧
    (ldpsFrame ts [100, 200]).length = 12 := ⟨rfl, rfl⟩

/-- C7: every frame an iteration emits, of every class, ends with the
bytes 0x0D 0x0A. -/
theorem frames_end_with_crlf (T : Nat) (s : LoggerState) (i : LoggerInput)
    (f : List Nat) (hf : f ∈ (step T s i).2.1) :
    ∃ p, f = p ++ [0x0D, 0x0A] := by
  rcases mem_step_frames hf with ⟨_, rfl⟩ | ⟨_, rfl⟩ | ⟨_, rfl⟩ | ⟨_, rfl⟩
  · exact ⟨le32 i.ts ++ [1, (2 * i.ldps.length) % 256] ++ i.ldps.flatMap le16,
      by simp [ldpsFrame, List.append_assoc]⟩
  · exact ⟨le32 i.ts ++ [2, 6] ++ le16 i.accX ++ le16 i.accY ++ le16 i.accZ,
      by simp [triFrame, List.append_assoc]⟩
  · exact ⟨le32 i.ts ++ [3, 6] ++ le16 i.gyroX ++ le16 i.gyroY ++ le16 i.gyroZ,
      by simp [triFrame, List.append_assoc]⟩
  · exact ⟨le32 i.ts ++ [4] ++ i.wheels.flatMap le32,
      by simp [wheelFrame, List.append_assoc]⟩

/-- Instance of C7 at a concrete iteration that emits an LDPS frame. -/
theorem frames_end_with_crlf_witness :
    ∃ p, ldpsFrame 1 [] = p ++ [0x0D, 0x0A] :=
  frames_end_with_crlf 0 initState sampleIn (ldpsFrame 1 []) (by decide)

/-- A conditional singleton is a sublist of the singleton. -/
theorem ite_singleton_sublist {α : Type} {b : Prop} [Decidable b] (x : α) :
    List.Sublist (if b then [x] else []) [x] := by
  split
  · exact List.Sublist.refl _
  · exact List.nil_sublist _

/-- C8: within one iteration the classes are evaluated in the fixed
order range array (0x01), accelerometer (0x02), gyroscope (0x03),
wheel speed (0x04): the id bytes of the frames emitted by one
iteration form a sublist of `[1, 2, 3, 4]`, and at most four frames
are emitted. -/
theorem iteration_frame_order (T : Nat) (s : LoggerState) (i : LoggerInput) :
    List.Sublist ((step T s i).2.1.map fun f => f[4]?)
      [some 1, some 2, some 3, some 4] ∧
    (step T s i).2.1.length ≤ 4 := by
  have h : ((step T s i).2.1.map fun f => f[4]?) =
      (if T / 1000 < wsub i.ts s.lastLdps then [some 1] else []) ++
      (if i.accTs ≠ s.lastAcc then [some 2] else []) ++
      (if i.gyroTs ≠ s.lastGyro then [some 3] else []) ++
      (if T / 1000 < wsub i.ts s.lastWheel then [some 4] else []) := by
    by_cases h1 : T / 1000 < wsub i.ts s.lastLdps <;>
    by_cases h2 : i.accTs = s.lastAcc <;>
    by_cases h3 : i.gyroTs = s.lastGyro <;>
    by_cases h4 : T / 1000 < wsub i.ts s.lastWheel <;>
    simp [step, h1, h2, h3, h4]
  have hs : List.Sublist ((step T s i).2.1.map fun f => f[4]?)
      [some 1, some 2, some 3, some 4] := by
    rw [h]
    exact List.Sublist.append
      (List.Sublist.append
        (List.Sublist.append (ite_singleton_sublist _) (ite_singleton_sublist _))
        (ite_singleton_sublist _))
      (ite_singleton_sublist _)
  refine ⟨hs, ?_⟩
  have hl := hs.length_le
  simpa using hl

/-- C9: every frame emitted within one iteration carries, as its 4-byte
header, the little-endian image of the tick captured once at the top of
the iteration — in particular the accelerometer and gyroscope frames
carry the loop tick, not the IMU driver's own sample timestamp. -/
theorem frames_carry_iteration_tick (T : Nat) (s : LoggerState)
    (i : LoggerInput) (f : List Nat) (hf : f ∈ (step T s i).2.1) :
    f.take 4 = le32 i.ts := by
  rcases mem_step_frames hf with ⟨_, rfl⟩ | ⟨_, rfl⟩ | ⟨_, rfl⟩ | ⟨_, rfl⟩ <;>
    simp [ldpsFrame, triFrame, wheelFrame, le32]

/-- Instance of C9 at a concrete iteration whose IMU sample timestamp
(1) and loop tick (1) coincide but whose emitted LDPS frame shows the
loop tick. -/
theorem frames_carry_iteration_tick_witness :
    (ldpsFrame 1 []).take 4 = le32 1 :=
  frames_carry_iteration_tick 0 initState sampleIn (ldpsFrame 1 []) (by decide)

/-- Spacing lemma for the LDPS tick gate: in a run with bounded and
monotone ticks whose starting gate value lies below every tick, the
ticks at which LDPS frames are emitted are pairwise more than the
threshold apart, and each exceeds the starting gate value by more than
the threshold. -/
theorem ldps_emit_spacing (T : Nat) :
    ∀ (inputs : List LoggerInput) (s : LoggerState),
      (∀ j ∈ inputs, j.ts < 2 ^ 32) →
      List.Pairwise (fun a b => a.ts ≤ b.ts) inputs →
      s.lastLdps < 2 ^ 32 →
      (∀ j ∈ inputs, s.lastLdps ≤ j.ts) →
      List.Pairwise (fun a b => T / 1000 < b - a)
        (emitProj T 1 (fun j => j.ts) s inputs) ∧
      ∀ t ∈ emitProj T 1 (fun j => j.ts) s inputs, T / 1000 < t - s.lastLdps := by
  intro inputs
  induction inputs with
  | nil =>
    intro s _ _ _ _
    exact ⟨List.Pairwise.nil, by simp [emitProj]⟩
  | cons i rest ih =>
    intro s hb hm hL hle
    have hbi : i.ts < 2 ^ 32 := hb i (List.mem_cons_self i rest)
    have hbr : ∀ j ∈ rest, j.ts < 2 ^ 32 := fun j hj => hb j (List.mem_cons_of_mem i hj)
    have hmr : List.Pairwise (fun a b => a.ts ≤ b.ts) rest := (List.pairwise_cons.1 hm).2
    have hmi : ∀ j ∈ rest, i.ts ≤ j.ts := (List.pairwise_cons.1 hm).1
    have hunf : emitProj T 1 (fun j => j.ts) s (i :: rest) =
        (if emittedClass (step T s i).2.1 1 then [i.ts] else []) ++
          emitProj T 1 (fun j => j.ts) (step T s i).1 rest := rfl
    by_cases hg : T / 1000 < wsub i.ts s.lastLdps
    · have hstep : (step T s i).1.lastLdps = i.ts := by
        rw [step_lastLdps, if_pos hg]
      have hrec := ih (step T s i).1 hbr hmr (by rw [hstep]; exact hbi)
        (fun j hj => by rw [hstep]; exact hmi j hj)
      rw [hstep] at hrec
      have hcond : emittedClass (step T s i).2.1 1 = true := (emit_ldps_iff T s i).2 hg
      rw [hunf, hcond, if_pos rfl]
      have hhead : T / 1000 < i.ts - s.lastLdps := by
        rw [← wsub_eq_sub hbi hL (hle i (List.mem_cons_self i rest))]
        exact hg
      constructor
      · exact List.pairwise_cons.2 ⟨fun t ht => by simpa using hrec.2 t (by simpa using ht), hrec.1⟩
      · intro t ht
        rcases List.mem_cons.1 ht with rfl | ht
        · exact hhead
        · have h1 := hrec.2 t ht
          have h2 : t - i.ts ≤ t - s.lastLdps :=
            Nat.sub_le_sub_left (hle i (List.mem_cons_self i rest)) t
          omega
    · have hstep : (step T s i).1.lastLdps = s.lastLdps := by
        rw [step_lastLdps, if_neg hg]
      have hrec := ih (step T s i).1 hbr hmr (by rw [hstep]; exact hL)
        (fun j hj => by rw [hstep]; exact hle j (List.mem_cons_of_mem i hj))
      rw [hstep] at hrec
      have hcond : emittedClass (step T s i).2.1 1 = false := by
        rw [← Bool.not_eq_true]
        exact fun h => hg ((emit_ldps_iff T s i).1 h)
      rw [hunf, hcond]
      simpa using hrec

/-- Spacing lemma for the wheel-speed tick gate, the twin of
`ldps_emit_spacing` for the gate at `logger.c:157`. -/
theorem wheel_emit_spacing (T : Nat) :
    ∀ (inputs : List LoggerInput) (s : LoggerState),
      (∀ j ∈ inputs, j.ts < 2 ^ 32) →
      List.Pairwise (fun a b => a.ts ≤ b.ts) inputs →
      s.lastWheel < 2 ^ 32 →
      (∀ j ∈ inputs, s.lastWheel ≤ j.ts) →
      List.Pairwise (fun a b => T / 1000 < b - a)
        (emitProj T 4 (fun j => j.ts) s inputs) ∧
      ∀ t ∈ emitProj T 4 (fun j => j.ts) s inputs, T / 1000 < t - s.lastWheel := by
  intro inputs
  induction inputs with
  | nil =>
    intro s _ _ _ _
    exact ⟨List.Pairwise.nil, by simp [emitProj]⟩
  | cons i rest ih =>
    intro s hb hm hL hle
    have hbi : i.ts < 2 ^ 32 := hb i (List.mem_cons_self i rest)
    have hbr : ∀ j ∈ rest, j.ts < 2 ^ 32 := fun j hj => hb j (List.mem_cons_of_mem i hj)
    have hmr : List.Pairwise (fun a b => a.ts ≤ b.ts) rest := (List.pairwise_cons.1 hm).2
    have hmi : ∀ j ∈ rest, i.ts ≤ j.ts := (List.pairwise_cons.1 hm).1
    have hunf : emitProj T 4 (fun j => j.ts) s (i :: rest) =
        (if emittedClass (step T s i).2.1 4 then [i.ts] else []) ++
          emitProj T 4 (fun j => j.ts) (step T s i).1 rest := rfl
    by_cases hg : T / 1000 < wsub i.ts s.lastWheel
    · have hstep : (step T s i).1.lastWheel = i.ts := by
        rw [step_lastWheel, if_pos hg]
      have hrec := ih (step T s i).1 hbr hmr (by rw [hstep]; exact hbi)
        (fun j hj => by rw [hstep]; exact hmi j hj)
      rw [hstep] at hrec
      have hcond : emittedClass (step T s i).2.1 4 = true := (emit_wheel_iff T s i).2 hg
      rw [hunf, hcond, if_pos rfl]
      have hhead : T / 1000 < i.ts - s.lastWheel := by
        rw [← wsub_eq_sub hbi hL (hle i (List.mem_cons_self i rest))]
        exact hg
      constructor
      · exact List.pairwise_cons.2 ⟨fun t ht => by simpa using hrec.2 t (by simpa using ht), hrec.1⟩
      · intro t ht
        rcases List.mem_cons.1 ht with rfl | ht
        · exact hhead
        · have h1 := hrec.2 t ht
          have h2 : t - i.ts ≤ t - s.lastWheel :=
            Nat.sub_le_sub_left (hle i (List.mem_cons_self i rest)) t
          omega
    · have hstep : (step T s i).1.lastWheel = s.lastWheel := by
        rw [step_lastWheel, if_neg hg]
      have hrec := ih (step T s i).1 hbr hmr (by rw [hstep]; exact hL)
        (fun j hj => by rw [hstep]; exact hle j (List.mem_cons_of_mem i hj))
      rw [hstep] at hrec
      have hcond : emittedClass (step T s i).2.1 4 = false := by
        rw [← Bool.not_eq_true]
        exact fun h => hg ((emit_wheel_iff T s i).1 h)
      rw [hunf, hcond]
      simpa using hrec

/-- C4: a tick-gated class (range array, class 1; wheel speed, class 4)
emits in an iteration exactly when `now_tick - last_emit_tick` is
strictly greater than the threshold `T / 1000`, and over any run from
startup with monotone, in-range ticks the captured ticks of the frames
of one tick-gated class are pairwise more than the threshold apart —
so no two such frames differ by less than the threshold, however fast
the loop iterates. -/
theorem tick_gated_min_spacing (T : Nat) (s : LoggerState) (i : LoggerInput)
    (inputs : List LoggerInput)
    (hb : ∀ j ∈ inputs, j.ts < 2 ^ 32)
    (hm : List.Pairwise (fun a b => a.ts ≤ b.ts) inputs) :
    (emittedClass (step T s i).2.1 1 = true ↔ T / 1000 < wsub i.ts s.lastLdps) ∧
    (emittedClass (step T s i).2.1 4 = true ↔ T / 1000 < wsub i.ts s.lastWheel) ∧
    List.Pairwise (fun a b => T / 1000 < b - a)
      (emitProj T 1 (fun j => j.ts) initState inputs) ∧
    List.Pairwise (fun a b => T / 1000 < b - a)
      (emitProj T 4 (fun j => j.ts) initState inputs) :=
  ⟨emit_ldps_iff T s i, emit_wheel_iff T s i,
   (ldps_emit_spacing T inputs initState hb hm (by norm_num [initState])
     (fun _ _ => Nat.zero_le _)).1,
   (wheel_emit_spacing T inputs initState hb hm (by norm_num [initState])
     (fun _ _ => Nat.zero_le _)).1⟩

/-- Instance of C4 at threshold 2 (`T = 2000`) over a two-iteration run
with ticks 1 and 5. -/
theorem tick_gated_min_spacing_witness :
    (emittedClass (step 2000 initState sampleIn).2.1 1 = true ↔
      2000 / 1000 < wsub sampleIn.ts initState.lastLdps) ∧
    (emittedClass (step 2000 initState sampleIn).2.1 4 = true ↔
      2000 / 1000 < wsub sampleIn.ts initState.lastWheel) ∧
    List.Pairwise (fun a b => 2000 / 1000 < b - a)
      (emitProj 2000 1 (fun j => j.ts) initState [sampleIn, sampleIn2]) ∧
    List.Pairwise (fun a b => 2000 / 1000 < b - a)
      (emitProj 2000 4 (fun j => j.ts) initState [sampleIn, sampleIn2]) :=
  tick_gated_min_spacing 2000 initState sampleIn [sampleIn, sampleIn2]
    (by decide) (by decide)

/-- Distinctness lemma for the accelerometer edge gate: in a run with a
monotone upstream sample-timestamp sequence whose starting gate value
lies below every upstream timestamp, the upstream timestamps at which
accelerometer frames are emitted are strictly increasing, and each
exceeds the starting gate value. -/
theorem acc_emit_distinct (T : Nat) :
    ∀ (inputs : List LoggerInput) (s : LoggerState),
      List.Pairwise (fun a b => a.accTs ≤ b.accTs) inputs →
      (∀ j ∈ inputs, s.lastAcc ≤ j.accTs) →
      List.Pairwise (fun a b => a < b)
        (emitProj T 2 (fun j => j.accTs) s inputs) ∧
      ∀ t ∈ emitProj T 2 (fun j => j.accTs) s inputs, s.lastAcc < t := by
  intro inputs
  induction inputs with
  | nil =>
    intro s _ _
    exact ⟨List.Pairwise.nil, by simp [emitProj]⟩
  | cons i rest ih =>
    intro s hm hle
    have hmr : List.Pairwise (fun a b => a.accTs ≤ b.accTs) rest :=
      (List.pairwise_cons.1 hm).2
    have hmi : ∀ j ∈ rest, i.accTs ≤ j.accTs := (List.pairwise_cons.1 hm).1
    have hunf : emitProj T 2 (fun j => j.accTs) s (i :: rest) =
        (if emittedClass (step T s i).2.1 2 then [i.accTs] else []) ++
          emitProj T 2 (fun j => j.accTs) (step T s i).1 rest := rfl
    by_cases hg : i.accTs = s.lastAcc
    · have hstep : (step T s i).1.lastAcc = s.lastAcc := by
        rw [step_lastAcc, if_neg (by simpa using hg)]
      have hrec := ih (step T s i).1 hmr
        (fun j hj => by rw [hstep]; exact hle j (List.mem_cons_of_mem i hj))
      rw [hstep] at hrec
      have hcond : emittedClass (step T s i).2.1 2 = false := by
        rw [← Bool.not_eq_true]
        exact fun h => (emit_acc_iff T s i).1 h hg
      rw [hunf, hcond]
      simpa using hrec
    · have hstep : (step T s i).1.lastAcc = i.accTs := by
        rw [step_lastAcc, if_pos hg]
      have hrec := ih (step T s i).1 hmr
        (fun j hj => by rw [hstep]; exact hmi j hj)
      rw [hstep] at hrec
      have hcond : emittedClass (step T s i).2.1 2 = true := (emit_acc_iff T s i).2 hg
      rw [hunf, hcond, if_pos rfl]
      have hhead : s.lastAcc < i.accTs :=
        Nat.lt_of_le_of_ne (hle i (List.mem_cons_self i rest)) (Ne.symm hg)
      constructor
      · exact List.pairwise_cons.2 ⟨fun t ht => by simpa using hrec.2 t (by simpa using ht), hrec.1⟩
      · intro t ht
        rcases List.mem_cons.1 ht with rfl | ht
        · exact hhead
        · exact Nat.lt_trans hhead (hrec.2 t ht)

/-- Distinctness lemma for the gyroscope edge gate, the twin of
`acc_emit_distinct` for the gate at `logger.c:142`. -/
theorem gyro_emit_distinct (T : Nat) :
    ∀ (inputs : List LoggerInput) (s : LoggerState),
      List.Pairwise (fun a b => a.gyroTs ≤ b.gyroTs) inputs →
      (∀ j ∈ inputs, s.lastGyro ≤ j.gyroTs) →
      List.Pairwise (fun a b => a < b)
        (emitProj T 3 (fun j => j.gyroTs) s inputs) ∧
      ∀ t ∈ emitProj T 3 (fun j => j.gyroTs) s inputs, s.lastGyro < t := by
  intro inputs
  induction inputs with
  | nil =>
    intro s _ _
    exact ⟨List.Pairwise.nil, by simp [emitProj]⟩
  | cons i rest ih =>
    intro s hm hle
    have hmr : List.Pairwise (fun a b => a.gyroTs ≤ b.gyroTs) rest :=
      (List.pairwise_cons.1 hm).2
    have hmi : ∀ j ∈ rest, i.gyroTs ≤ j.gyroTs := (List.pairwise_cons.1 hm).1
    have hunf : emitProj T 3 (fun j => j.gyroTs) s (i :: rest) =
        (if emittedClass (step T s i).2.1 3 then [i.gyroTs] else []) ++
          emitProj T 3 (fun j => j.gyroTs) (step T s i).1 rest := rfl
    by_cases hg : i.gyroTs = s.lastGyro
    · have hstep : (step T s i).1.lastGyro = s.lastGyro := by
        rw [step_lastGyro, if_neg (by simpa using hg)]
      have hrec := ih (step T s i).1 hmr
        (fun j hj => by rw [hstep]; exact hle j (List.mem_cons_of_mem i hj))
      rw [hstep] at hrec
      have hcond : emittedClass (step T s i).2.1 3 = false := by
        rw [← Bool.not_eq_true]
        exact fun h => (emit_gyro_iff T s i).1 h hg
      rw [hunf, hcond]
      simpa using hrec
    · have hstep : (step T s i).1.lastGyro = i.gyroTs := by
        rw [step_lastGyro, if_pos hg]
      have hrec := ih (step T s i).1 hmr
        (fun j hj => by rw [hstep]; exact hmi j hj)
      rw [hstep] at hrec
      have hcond : emittedClass (step T s i).2.1 3 = true := (emit_gyro_iff T s i).2 hg
      rw [hunf, hcond, if_pos rfl]
      have hhead : s.lastGyro < i.gyroTs :=
        Nat.lt_of_le_of_ne (hle i (List.mem_cons_self i rest)) (Ne.symm hg)
      constructor
      · exact List.pairwise_cons.2 ⟨fun t ht => by simpa using hrec.2 t (by simpa using ht), hrec.1⟩
      · intro t ht
        rcases List.mem_cons.1 ht with rfl | ht
        · exact hhead
        · exact Nat.lt_trans hhead (hrec.2 t ht)

/-- C5: an edge-triggered class (accelerometer, class 2; gyroscope,
class 3) emits in an iteration exactly when the upstream driver's
sample timestamp differs from the value observed at the class's
previous emission — so never when they are equal — and over any run
from startup with a monotone upstream timestamp sequence, the upstream
timestamps observed at the class's emissions are pairwise distinct: at
most one frame per distinct upstream timestamp value. -/
theorem edge_triggered_distinct (T : Nat) (s : LoggerState) (i : LoggerInput)
    (inputs : List LoggerInput)
    (hma : List.Pairwise (fun a b => a.accTs ≤ b.accTs) inputs)
    (hmg : List.Pairwise (fun a b => a.gyroTs ≤ b.gyroTs) inputs) :
    (emittedClass (step T s i).2.1 2 = true ↔ i.accTs ≠ s.lastAcc) ∧
    (emittedClass (step T s i).2.1 3 = true ↔ i.gyroTs ≠ s.lastGyro) ∧
    List.Pairwise (fun a b => a ≠ b)
      (emitProj T 2 (fun j => j.accTs) initState inputs) ∧
    List.Pairwise (fun a b => a ≠ b)
      (emitProj T 3 (fun j => j.gyroTs) initState inputs) :=
  ⟨emit_acc_iff T s i, emit_gyro_iff T s i,
   ((acc_emit_distinct T inputs initState hma
       (fun _ _ => Nat.zero_le _)).1).imp (fun h => Nat.ne_of_lt h),
   ((gyro_emit_distinct T inputs initState hmg
       (fun _ _ => Nat.zero_le _)).1).imp (fun h => Nat.ne_of_lt h)⟩

/-- Instance of C5 over a two-iteration run with IMU sample timestamps
1 then 2. -/
theorem edge_triggered_distinct_witness :
    (emittedClass (step 0 initState sampleIn).2.1 2 = true ↔
      sampleIn.accTs ≠ initState.lastAcc) ∧
    (emittedClass (step 0 initState sampleIn).2.1 3 = true ↔
      sampleIn.gyroTs ≠ initState.lastGyro) ∧
    List.Pairwise (fun a b => a ≠ b)
      (emitProj 0 2 (fun j => j.accTs) initState [sampleIn, sampleIn2]) ∧
    List.Pairwise (fun a b => a ≠ b)
      (emitProj 0 3 (fun j => j.gyroTs) initState [sampleIn, sampleIn2]) :=
  edge_triggered_distinct 0 initState sampleIn [sampleIn, sampleIn2]
    (by decide) (by decide)

/-- Flush-window lemma: after any iteration of any run with in-range
ticks, that iteration's tick is at most the flush interval `T` beyond
the SD gate value — if it got farther, `fx_media_flush` ran in that
very iteration and reset the gate. -/
theorem flush_window_aux (T : Nat) :
    ∀ (inputs : List LoggerInput) (s : LoggerState) (k : Nat)
      (hk : k < inputs.length),
      (∀ j ∈ inputs, j.ts < 2 ^ 32) →
      wsub (inputs.get ⟨k, hk⟩).ts
        (stateAfter T s (inputs.take (k + 1))).lastSd ≤ T := by
  intro inputs
  induction inputs with
  | nil =>
    intro s k hk
    simp at hk
  | cons i rest ih =>
    intro s k hk hb
    cases k with
    | zero =>
      have hts : i.ts < 2 ^ 32 := hb i (List.mem_cons_self i rest)
      have hunf : (stateAfter T s ((i :: rest).take 1)).lastSd =
          (step T s i).1.lastSd := rfl
      by_cases hg : T < wsub i.ts s.lastSd
      · have hsd : (step T s i).1.lastSd = i.ts := by
          rw [step_lastSd, if_pos hg]
        show wsub i.ts (stateAfter T s ((i :: rest).take 1)).lastSd ≤ T
        rw [hunf, hsd, wsub_eq_sub hts hts (Nat.le_refl _)]
        omega
      · have hsd : (step T s i).1.lastSd = s.lastSd := by
          rw [step_lastSd, if_neg hg]
        show wsub i.ts (stateAfter T s ((i :: rest).take 1)).lastSd ≤ T
        rw [hunf, hsd]
        omega
    | succ k =>
      exact ih (step T s i).1 k (Nat.lt_of_succ_lt_succ hk)
        (fun j hj => hb j (List.mem_cons_of_mem i hj))

/-- C6: the SD flush is gated by its own independent timer: the flush
decision of an iteration is a function of the iteration's tick and the
flush gate alone (unchanged under arbitrary changes to the sensor
observations and sensor gates), it fires exactly when
`timestamp - last_sd_timestamp > T`, and along any run with in-range
ticks every iteration ends with its tick at most `T` past the SD gate —
the flush interval is never exceeded, whether or not any sensor class
emitted. -/
theorem flush_gate_independent_and_bounded (T : Nat) (s s2 : LoggerState)
    (i i2 : LoggerInput) (inputs : List LoggerInput) (k : Nat)
    (hts : i.ts = i2.ts) (hsd : s.lastSd = s2.lastSd)
    (hk : k < inputs.length) (hb : ∀ j ∈ inputs, j.ts < 2 ^ 32) :
    ((step T s i).2.2 = (step T s2 i2).2.2) ∧
    ((step T s i).2.2 = true ↔ T < wsub i.ts s.lastSd) ∧
    wsub (inputs.get ⟨k, hk⟩).ts
      (stateAfter T s (inputs.take (k + 1))).lastSd ≤ T := by
  refine ⟨?_, ?_, flush_window_aux T inputs s k hk hb⟩
  · show decide (T < wsub i.ts s.lastSd) = decide (T < wsub i2.ts s2.lastSd)
    rw [hts, hsd]
  · show decide (T < wsub i.ts s.lastSd) = true ↔ T < wsub i.ts s.lastSd
    exact decide_eq_true_iff

/-- Instance of C6 over a one-iteration run: the iteration's sensor
observations are changed wholesale without changing the flush
decision. -/
theorem flush_gate_independent_and_bounded_witness :
    ((step 10 initState sampleIn2).2.2 =
      (step 10 ⟨3, 4, 5, 6, initState.lastSd⟩ sampleIn3).2.2) ∧
    ((step 10 initState sampleIn2).2.2 = true ↔
      10 < wsub sampleIn2.ts initState.lastSd) ∧
    wsub (([sampleIn] : List LoggerInput).get ⟨0, by decide⟩).ts
      (stateAfter 10 initState (([sampleIn] : List LoggerInput).take 1)).lastSd ≤ 10 :=
  flush_gate_independent_and_bounded 10 initState ⟨3, 4, 5, 6, initState.lastSd⟩
    sampleIn2 sampleIn3 [sampleIn] 0 (by decide) (by decide) (by decide) (by decide)

/-- While the upstream accelerometer timestamp stays 0, so does the
accelerometer edge gate. -/
theorem lastAcc_stays_zero (T : Nat) :
    ∀ (inputs : List LoggerInput) (s : LoggerState),
      (∀ j ∈ inputs, j.accTs = 0) → s.lastAcc = 0 →
      (stateAfter T s inputs).lastAcc = 0 := by
  intro inputs
  induction inputs with
  | nil => intro s _ h0; exact h0
  | cons i rest ih =>
    intro s hz h0
    exact ih (step T s i).1 (fun j hj => hz j (List.mem_cons_of_mem i hj))
      (by rw [step_lastAcc, hz i (List.mem_cons_self i rest), h0]; simp)

/-- No accelerometer frame appears in a run whose upstream
accelerometer timestamp is 0 throughout, started with a zero gate. -/
theorem no_acc_frames_aux (T : Nat) :
    ∀ (inputs : List LoggerInput) (s : LoggerState),
      (∀ j ∈ inputs, j.accTs = 0) → s.lastAcc = 0 →
      ∀ f ∈ (runTrace T s inputs).flatten, ¬ f[4]? = some 2 := by
  intro inputs
  induction inputs with
  | nil =>
    intro s _ _ f hf
    simp [runTrace] at hf
  | cons i rest ih =>
    intro s hz h0 f hf
    have hunf : (runTrace T s (i :: rest)).flatten =
        (step T s i).2.1 ++ (runTrace T (step T s i).1 rest).flatten := rfl
    rw [hunf] at hf
    rcases List.mem_append.1 hf with h | h
    · rcases mem_step_frames h with ⟨_, rfl⟩ | ⟨hg, rfl⟩ | ⟨_, rfl⟩ | ⟨_, rfl⟩
      · simp
      · exact absurd (by rw [hz i (List.mem_cons_self i rest), h0]) hg
      · simp
      · simp
    · exact ih (step T s i).1 (fun j hj => hz j (List.mem_cons_of_mem i hj))
        (by rw [step_lastAcc, hz i (List.mem_cons_self i rest), h0]; simp) f h

/-- No gyroscope frame appears in a run whose upstream gyroscope
timestamp is 0 throughout, started with a zero gate. -/
theorem no_gyro_frames_aux (T : Nat) :
    ∀ (inputs : List LoggerInput) (s : LoggerState),
      (∀ j ∈ inputs, j.gyroTs = 0) → s.lastGyro = 0 →
      ∀ f ∈ (runTrace T s inputs).flatten, ¬ f[4]? = some 3 := by
  intro inputs
  induction inputs with
  | nil =>
    intro s _ _ f hf
    simp [runTrace] at hf
  | cons i rest ih =>
    intro s hz h0 f hf
    have hunf : (runTrace T s (i :: rest)).flatten =
        (step T s i).2.1 ++ (runTrace T (step T s i).1 rest).flatten := rfl
    rw [hunf] at hf
    rcases List.mem_append.1 hf with h | h
    · rcases mem_step_frames h with ⟨_, rfl⟩ | ⟨_, rfl⟩ | ⟨hg, rfl⟩ | ⟨_, rfl⟩
      · simp
      · simp
      · exact absurd (by rw [hz i (List.mem_cons_self i rest), h0]) hg
      · simp
    · exact ih (step T s i).1 (fun j hj => hz j (List.mem_cons_of_mem i hj))
        (by rw [step_lastGyro, hz i (List.mem_cons_self i rest), h0]; simp) f h

/-- C10: both edge gates start at 0 (`static uint32_t ... = 0`), so in
any execution from startup during which the upstream IMU sample
timestamps stay 0, no accelerometer (class 2) and no gyroscope
(class 3) frame is ever emitted: a first frame of such a class requires
the upstream timestamp to take a value different from 0. -/
theorem edge_gates_init_zero (T : Nat) (inputs : List LoggerInput)
    (hacc : ∀ j ∈ inputs, j.accTs = 0) (hgyro : ∀ j ∈ inputs, j.gyroTs = 0) :
    initState.lastAcc = 0 ∧ initState.lastGyro = 0 ∧
    (∀ f ∈ (runTrace T initState inputs).flatten, ¬ f[4]? = some 2) ∧
    (∀ f ∈ (runTrace T initState inputs).flatten, ¬ f[4]? = some 3) :=
  ⟨rfl, rfl,
   no_acc_frames_aux T inputs initState hacc rfl,
   no_gyro_frames_aux T inputs initState hgyro rfl⟩

/-- Instance of C10 over a one-iteration run whose IMU timestamps are
still 0 (the iteration emits LDPS and wheel frames but no IMU frame). -/
theorem edge_gates_init_zero_witness :
    initState.lastAcc = 0 ∧ initState.lastGyro = 0 ∧
    (∀ f ∈ (runTrace 0 initState [sampleZeroIn]).flatten, ¬ f[4]? = some 2) ∧
    (∀ f ∈ (runTrace 0 initState [sampleZeroIn]).flatten, ¬ f[4]? = some 3) :=
  edge_gates_init_zero 0 [sampleZeroIn] (by decide) (by decide)

end Logger
